import Mathlib

/-!
# ttysrv: the broadcast hub of `main.go`

A shallow embedding of `ChannelManager` (`New`, `Clone`, `Close`), of the loop of
`captureSerial` and of the loop body of `serveClient`, with the properties of the
fan-out that the specification states.

Modelling conventions.

* A Go channel value is a handle (`Nat`) into a heap of channels; `make` allocates
  the next unused handle.  A handle that was never made plays the part of Go's nil
  channel.
* All channels of the program are unbuffered, so a send completes exactly when the
  receiver takes the value.  Each channel records the values handed through it so
  far (`Chan.log`); what a subscriber has received is the log of its channel, and
  what the hub has taken from the source is the log of the master channel.
* The operations are atomic steps: one call of `Clone`, one call of `Close`, one
  iteration of the loop of the goroutine started by `New`.  One interleaving inside
  an iteration is modelled as well: the goroutine parked in a send `s <- d` of its
  inner loop while a consumer runs (`hubResume`).
* Run-time panics of channel operations are results of type `Except Panic`.
-/

namespace Ttysrv

/-- The payload of one channel send: a byte slice. -/
abbrev Frame := List Nat

/-- Faults of the channel operations used by the program.  `nilChannel` marks an
operation on a handle that no `make` returned (in Go: send and receive block
forever, `close` panics). -/
inductive Panic where
  | sendOnClosed
  | closeOfClosed
  | nilChannel
  deriving DecidableEq

/-- An unbuffered `chan []byte`: whether `close` was called on it, and the values
handed through it so far, oldest first. -/
structure Chan where
  closed : Bool
  log : List Frame
  deriving DecidableEq

/-- The struct `ChannelManager` (main.go:20-23) together with the part of the
program state its methods act on: the heap of channels made so far and whether the
goroutine started by `New` (main.go:114-124) is still in its loop. -/
structure ChannelManager where
  heap : List Chan
  master : Nat
  clones : List Nat
  hubAlive : Bool
  deriving DecidableEq

/-- The expression `make(chan []byte)`: a new open channel nothing went through. -/
def makeChan (heap : List Chan) : Nat × List Chan :=
  (heap.length, heap ++ [{ closed := false, log := [] }])

/-- The statement `s <- d`, completed by the receiver. -/
def send (heap : List Chan) (s : Nat) (d : Frame) : Except Panic (List Chan) :=
  match heap[s]? with
  | none => .error .nilChannel
  | some c =>
    if c.closed then .error .sendOnClosed
    else .ok (heap.set s { c with log := c.log ++ [d] })

/-- The statement `close(s)`. -/
def closeChan (heap : List Chan) (s : Nat) : Except Panic (List Chan) :=
  match heap[s]? with
  | none => .error .nilChannel
  | some c =>
    if c.closed then .error .closeOfClosed
    else .ok (heap.set s { c with closed := true })

/-- The inner loop `for s := range cm.clones { s <- d }` (main.go:120-122), the
keys visited in the order of the list. -/
def fanOut (d : Frame) : List Nat → List Chan → Except Panic (List Chan)
  | [], heap => .ok heap
  | s :: rest, heap =>
    match send heap s d with
    | .error e => .error e
    | .ok heap1 => fanOut d rest heap1

/-- The function `New` (main.go:109-126): a manager over `master` with no clones,
its goroutine started. -/
def New (heap : List Chan) (master : Nat) : ChannelManager :=
  { heap := heap, master := master, clones := [], hubAlive := true }

/-- One iteration of the loop of the goroutine started by `New` (main.go:115-123).
`d` is the value the source hands over on `master` when `master` is open.  Once
the goroutine has returned nothing runs any more. -/
def hubIter (w : ChannelManager) (d : Frame) : Except Panic ChannelManager :=
  if w.hubAlive then
    match w.heap[w.master]? with
    | none => .error .nilChannel
    | some m =>
      if m.closed then .ok { w with hubAlive := false }
      else
        match fanOut d w.clones (w.heap.set w.master { m with log := m.log ++ [d] }) with
        | .error e => .error e
        | .ok heap1 => .ok { w with heap := heap1 }
  else .ok w

/-- The method `Clone` (main.go:128-132). -/
def Clone (w : ChannelManager) : Nat × ChannelManager :=
  let r := makeChan w.heap
  (r.1, { w with heap := r.2, clones := w.clones.insert r.1 })

/-- The method `Close` (main.go:134-139). -/
def Close (w : ChannelManager) (s : Nat) : Except Panic ChannelManager :=
  if s ∈ w.clones then
    match closeChan w.heap s with
    | .error e => .error e
    | .ok heap1 => .ok { w with heap := heap1, clones := w.clones.filter (fun t => t != s) }
  else .ok w

/-- The atomic steps of the hub and its callers. -/
inductive Step where
  | clone
  | close (s : Nat)
  | deliver (d : Frame)
  deriving DecidableEq

/-- One step. -/
def step (w : ChannelManager) : Step → Except Panic ChannelManager
  | .clone => .ok (Clone w).2
  | .close s => Close w s
  | .deliver d => hubIter w d

/-- A sequence of steps, the first fault ending the run. -/
def run : ChannelManager → List Step → Except Panic ChannelManager
  | w, [] => .ok w
  | w, a :: rest =>
    match step w a with
    | .error e => .error e
    | .ok w1 => run w1 rest

/-- The handles passed to `Close` in a sequence of steps. -/
def closedHandles : List Step → List Nat
  | [] => []
  | .close s :: rest => s :: closedHandles rest
  | .clone :: rest => closedHandles rest
  | .deliver _ :: rest => closedHandles rest

/-- The frames offered to the hub in a sequence of steps. -/
def framesOf : List Step → List Frame
  | [] => []
  | .deliver d :: rest => d :: framesOf rest
  | .clone :: rest => framesOf rest
  | .close _ :: rest => framesOf rest

/-- What went through channel `s` so far. -/
def chanLog (heap : List Chan) (s : Nat) : List Frame :=
  match heap[s]? with
  | some c => c.log
  | none => []

/-- Channel `s` was made and is not closed. -/
def isOpen (heap : List Chan) (s : Nat) : Bool :=
  match heap[s]? with
  | some c => !c.closed
  | none => false

/-- Channel `s` was made and is closed. -/
def isClosed (heap : List Chan) (s : Nat) : Bool :=
  match heap[s]? with
  | some c => c.closed
  | none => false

/-- The frames the hub takes from `master` during a sequence of steps that starts in
`w`: the frames offered when the goroutine is in its loop and `master` is open, and
none otherwise (no step reopens `master` or restarts the goroutine). -/
def ingested (w : ChannelManager) (steps : List Step) : List Frame :=
  if w.hubAlive = true ∧ isClosed w.heap w.master = false then framesOf steps else []

/-- Well-formed states: `master` is a made channel, the keys of `clones` are
pairwise distinct (it is a map), and every key is a made, open channel other than
`master`. -/
def WF (w : ChannelManager) : Prop :=
  w.master < w.heap.length ∧ w.clones.Nodup ∧
    ∀ s ∈ w.clones, s ≠ w.master ∧ isOpen w.heap s = true

instance decidableWF (w : ChannelManager) : Decidable (WF w) := by
  unfold WF; infer_instance

/-- The hub having taken the frames `fs` from `master` and the handles `cl` having
been passed to `Close` between the states `w` and `w1`. -/
structure Follows (w w1 : ChannelManager) (cl : List Nat) (fs : List Frame) : Prop where
  wf : WF w1
  master_eq : w1.master = w.master
  len_le : w.heap.length ≤ w1.heap.length
  master_log : chanLog w1.heap w.master = chanLog w.heap w.master ++ fs
  kept : ∀ s ∈ w.clones, s ∉ cl →
    s ∈ w1.clones ∧ chanLog w1.heap s = chanLog w.heap s ++ fs
  frozen : ∀ s, s < w.heap.length → s ∉ w.clones → s ≠ w.master →
    s ∉ w1.clones ∧ chanLog w1.heap s = chanLog w.heap s
  closed_by : ∀ s, isClosed w1.heap s = true → isClosed w.heap s = true ∨ s ∈ cl
  stopped : isClosed w.heap w.master = true ∨ w.hubAlive = false →
    fs = [] ∧ (isClosed w1.heap w1.master = true ∨ w1.hubAlive = false)
  running : w.hubAlive = true → isClosed w.heap w.master = false →
    w1.hubAlive = true ∧ isClosed w1.heap w1.master = false
  quiet : fs = [] → ∀ t, chanLog w1.heap t = chanLog w.heap t

/-- A network connection as `serveClient` uses it: the bytes written so far and
whether `conn.Close()` was called. -/
structure Conn where
  written : List Nat
  closed : Bool
  deriving DecidableEq

/-- One iteration of the loop of `serveClient` (main.go:80-88), from the point where
the receive `d := <-c` has returned `d`.  `writeOk` tells whether `conn.Write(d)`
returned a nil error.  The result holds the state, the connection and whether the
loop goes on. -/
def serveClientIter (w : ChannelManager) (c : Nat) (conn : Conn) (d : Frame)
    (writeOk : Bool) : Except Panic (ChannelManager × Conn × Bool) :=
  if writeOk then .ok (w, { conn with written := conn.written ++ d }, true)
  else
    match Close w c with
    | .error e => .error e
    | .ok w1 => .ok (w1, { conn with closed := true }, false)

/-- The outcome of one call `stream.Read(d)`: the bytes the device delivered, or an
error. -/
inductive ReadResult where
  | data (bs : List Nat)
  | fail
  deriving DecidableEq

/-- The call `stream.Read(d)` when the bytes `bs` arrive: the count `n` of bytes
read, at most `len(d)`, and the buffer, whose first `n` cells are overwritten and
whose other cells keep their content. -/
def readInto (d : List Nat) (bs : List Nat) : Nat × List Nat :=
  (min bs.length d.length,
    bs.take (min bs.length d.length) ++ d.drop (min bs.length d.length))

/-- The loop of the goroutine of `captureSerial` (main.go:50-57) over the outcomes of
its reads: the values sent on `out`, in order, and whether `out` was closed.  The
count returned by `Read` is dropped (`_, err := stream.Read(d)`) and the value sent
is the buffer `d` itself (`out <- d`). -/
def captureLoop : List Nat → List ReadResult → List Frame × Bool
  | _, [] => ([], false)
  | _, .fail :: _ => ([], true)
  | d, .data bs :: rest =>
    ((readInto d bs).2 :: (captureLoop (readInto d bs).2 rest).1,
      (captureLoop (readInto d bs).2 rest).2)

/-- The function `captureSerial` (main.go:39-60) once `serial.OpenPort` has
succeeded: `d := make([]byte, 64)` and the loop. -/
def captureSerial (reads : List ReadResult) : List Frame × Bool :=
  captureLoop (List.replicate 64 0) reads

/-- The bytes the device delivered in the successful reads before the first error. -/
def bytesRead : List ReadResult → List Nat
  | [] => []
  | .fail :: _ => []
  | .data bs :: rest => bs ++ bytesRead rest

/-- The state of `main` after `cm := New(c)`, `c` being the channel made by
`captureSerial`. -/
def hub0 : ChannelManager := New [{ closed := false, log := [] }] 0

/-- Two subscriptions registered on `hub0`: handles 1 and 2. -/
def hub2 : ChannelManager := (Clone (Clone hub0).2).2

/-- The state `hub2` after the frame "AB" went through. -/
def hubAB : ChannelManager :=
  { heap := [⟨false, [[65, 66]]⟩, ⟨false, [[65, 66]]⟩, ⟨false, [[65, 66]]⟩],
    master := 0, clones := [2, 1], hubAlive := true }

/-- The state `hub2` after the frame source closed `master` (main.go:53). -/
def hubEnd : ChannelManager :=
  { heap := [⟨true, []⟩, ⟨false, []⟩, ⟨false, []⟩],
    master := 0, clones := [2, 1], hubAlive := true }

/-- The goroutine started by `New` resumed inside its inner loop (main.go:120-122):
the frame `d` is taken from `master`, and `todo` holds the keys still to be visited,
the first of them being the key of the send `s <- d` the goroutine is parked in.  A
parked send completes when the receiver takes the value, and panics when the channel
has been closed in the meantime. -/
def hubResume (w : ChannelManager) (d : Frame) (todo : List Nat) :
    Except Panic ChannelManager :=
  match fanOut d todo w.heap with
  | .error e => .error e
  | .ok heap1 => .ok { w with heap := heap1 }

/-- The program with the log consumer (handle 1, `logOutput(*logFile, cm.Clone())`)
and two network consumers (handles 2 and 3, one `serveClient` each). -/
def hub3 : ChannelManager := (Clone hub2).2

/-- The state `hub3` after the frame "AB" went through. -/
def hub3AB : ChannelManager :=
  { heap := [⟨false, [[65, 66]]⟩, ⟨false, [[65, 66]]⟩, ⟨false, [[65, 66]]⟩,
             ⟨false, [[65, 66]]⟩],
    master := 0, clones := [3, 2, 1], hubAlive := true }

/-- The state `hub3AB` inside the next iteration: the hub has taken "CD" from
`master`, has handed it to 3 and is parked in the send to 2, whose consumer is still
in `conn.Write` of "AB". -/
def hubParked : ChannelManager :=
  { heap := [⟨false, [[65, 66], [67, 68]]⟩, ⟨false, [[65, 66]]⟩, ⟨false, [[65, 66]]⟩,
             ⟨false, [[65, 66], [67, 68]]⟩],
    master := 0, clones := [3, 2, 1], hubAlive := true }

/-- The state `hubParked` after the consumer of 2 has run the error branch of its
loop. -/
def hubFailed : ChannelManager :=
  { heap := [⟨false, [[65, 66], [67, 68]]⟩, ⟨false, [[65, 66]]⟩, ⟨true, [[65, 66]]⟩,
             ⟨false, [[65, 66], [67, 68]]⟩],
    master := 0, clones := [3, 1], hubAlive := true }

theorem chanLog_set (heap : List Chan) (i s : Nat) (c : Chan) :
    chanLog (heap.set s c) i = if s = i ∧ s < heap.length then c.log else chanLog heap i := by
  unfold chanLog
  rw [List.getElem?_set]
  by_cases h : s = i
  · subst h
    by_cases h2 : s < heap.length
    · simp [h2]
    · simp [h2, List.getElem?_eq_none (Nat.le_of_not_lt h2)]
  · simp [h]

theorem send_ok (heap : List Chan) (s : Nat) (d : Frame) (c : Chan)
    (h : heap[s]? = some c) (hc : c.closed = false) :
    send heap s d = .ok (heap.set s { c with log := c.log ++ [d] }) := by
  simp [send, h, hc]

/-- Effect of a fan-out over distinct, made, open channels. -/
theorem fanOut_spec (d : Frame) : ∀ (l : List Nat) (heap : List Chan), l.Nodup →
    (∀ s ∈ l, isOpen heap s = true) →
    ∃ heap1, fanOut d l heap = .ok heap1 ∧ heap1.length = heap.length ∧
      ∀ i, heap1[i]? = (heap[i]?).map
        (fun c => if i ∈ l then { c with log := c.log ++ [d] } else c) := by
  intro l
  induction l with
  | nil => intro heap _ _; exact ⟨heap, rfl, rfl, by intro i; simp⟩
  | cons s rest ih =>
    intro heap hnd hopen
    have hs := hopen s (List.mem_cons_self _ _)
    unfold isOpen at hs
    cases hget : heap[s]? with
    | none => simp [hget] at hs
    | some c =>
      simp [hget] at hs
      have hsl : s < heap.length := by
        by_contra hlt
        rw [List.getElem?_eq_none (Nat.le_of_not_lt hlt)] at hget
        cases hget
      rw [List.nodup_cons] at hnd
      obtain ⟨heap1, h1, h2, h3⟩ := ih (heap.set s { c with log := c.log ++ [d] }) hnd.2 (by
        intro t ht
        have := hopen t (List.mem_cons_of_mem _ ht)
        unfold isOpen at this ⊢
        rw [List.getElem?_set]
        by_cases hst : s = t
        · subst hst; exact absurd ht hnd.1
        · simpa [hst] using this)
      refine ⟨heap1, ?_, ?_, ?_⟩
      · simp [fanOut, send_ok heap s d c hget hs, h1]
      · simpa using h2
      · intro i
        rw [h3 i, List.getElem?_set]
        by_cases hsi : s = i
        · subst hsi
          simp [hsl, hget, hnd.1]
        · have : ¬ i = s := fun h => hsi h.symm
          simp [hsi, this]


theorem lt_of_isOpen {heap : List Chan} {s : Nat} (h : isOpen heap s = true) :
    s < heap.length := by
  by_contra hlt
  unfold isOpen at h
  rw [List.getElem?_eq_none (Nat.le_of_not_lt hlt)] at h
  cases h

theorem lt_of_isClosed {heap : List Chan} {s : Nat} (h : isClosed heap s = true) :
    s < heap.length := by
  by_contra hlt
  unfold isClosed at h
  rw [List.getElem?_eq_none (Nat.le_of_not_lt hlt)] at h
  cases h

theorem not_isOpen_of_isClosed {heap : List Chan} {s : Nat} (h : isClosed heap s = true) :
    isOpen heap s = false := by
  unfold isClosed at h
  unfold isOpen
  cases hg : heap[s]? with
  | none => rfl
  | some c => simp [hg] at h; simp [h]

theorem Follows.refl {w : ChannelManager} (h : WF w) : Follows w w [] [] where
  wf := h
  master_eq := rfl
  len_le := Nat.le_refl _
  master_log := by simp
  kept := by intro s hs _; exact ⟨hs, by simp⟩
  frozen := by intro s _ hs _; exact ⟨hs, rfl⟩
  closed_by := by intro s hs; exact Or.inl hs
  stopped := by intro hst; exact ⟨rfl, hst⟩
  running := by intro ha hc; exact ⟨ha, hc⟩
  quiet := by intro _ t; rfl

theorem Follows.trans {w w1 w2 : ChannelManager} {cl1 cl2 : List Nat} {fs1 fs2 : List Frame}
    (h1 : Follows w w1 cl1 fs1) (h2 : Follows w1 w2 cl2 fs2) :
    Follows w w2 (cl1 ++ cl2) (fs1 ++ fs2) where
  wf := h2.wf
  master_eq := by rw [h2.master_eq, h1.master_eq]
  len_le := Nat.le_trans h1.len_le h2.len_le
  master_log := by
    have := h2.master_log
    rw [h1.master_eq] at this
    rw [this, h1.master_log, List.append_assoc]
  kept := by
    intro s hs hcl
    simp only [List.mem_append, not_or] at hcl
    obtain ⟨ha, hb⟩ := h1.kept s hs hcl.1
    obtain ⟨hc, hd⟩ := h2.kept s ha hcl.2
    exact ⟨hc, by rw [hd, hb, List.append_assoc]⟩
  frozen := by
    intro s hlt hs hm
    obtain ⟨ha, hb⟩ := h1.frozen s hlt hs hm
    obtain ⟨hc, hd⟩ := h2.frozen s (Nat.lt_of_lt_of_le hlt h1.len_le) ha
      (by rw [h1.master_eq]; exact hm)
    exact ⟨hc, by rw [hd, hb]⟩
  closed_by := by
    intro s hs
    rcases h2.closed_by s hs with h | h
    · rcases h1.closed_by s h with h | h
      · exact Or.inl h
      · exact Or.inr (List.mem_append_left _ h)
    · exact Or.inr (List.mem_append_right _ h)
  stopped := by
    intro hst
    obtain ⟨ha, hb⟩ := h1.stopped hst
    obtain ⟨hc, hd⟩ := h2.stopped hb
    exact ⟨by rw [ha, hc]; rfl, hd⟩
  running := by
    intro ha hc
    obtain ⟨hb, hd⟩ := h1.running ha hc
    exact h2.running hb hd
  quiet := by
    intro hfs t
    have hboth := List.append_eq_nil.mp hfs
    rw [h2.quiet hboth.2 t, h1.quiet hboth.1 t]


theorem getElem?_makeChan_old (heap : List Chan) (i : Nat) (h : i < heap.length) :
    (makeChan heap).2[i]? = heap[i]? := by
  simp [makeChan, List.getElem?_append_left h]

theorem getElem?_makeChan_new (heap : List Chan) :
    (makeChan heap).2[(makeChan heap).1]? = some { closed := false, log := [] } := by
  simp [makeChan]

theorem Clone_follows {w : ChannelManager} (h : WF w) : Follows w (Clone w).2 [] [] := by
  obtain ⟨hm, hnd, hreg⟩ := h
  have hold : ∀ i, i < w.heap.length → (Clone w).2.heap[i]? = w.heap[i]? :=
    fun i hi => getElem?_makeChan_old w.heap i hi
  have hnotin : w.heap.length ∉ w.clones := by
    intro hin
    exact Nat.lt_irrefl _ (lt_of_isOpen (hreg _ hin).2)
  have hcl : (Clone w).2.clones = w.heap.length :: w.clones := by
    simp [Clone, makeChan, List.insert_of_not_mem hnotin]
  have hlogs : ∀ t, chanLog (Clone w).2.heap t = chanLog w.heap t := by
    intro t
    by_cases ht : t < w.heap.length
    · unfold chanLog; rw [hold t ht]
    · have ht2 : w.heap.length ≤ t := Nat.le_of_not_lt ht
      unfold chanLog
      rw [List.getElem?_eq_none ht2]
      by_cases ht3 : t = w.heap.length
      · subst ht3; simp [Clone, makeChan]
      · have : (Clone w).2.heap.length ≤ t := by
          have : (Clone w).2.heap.length = w.heap.length + 1 := by simp [Clone, makeChan]
          omega
        rw [List.getElem?_eq_none this]
  refine ⟨⟨?_, ?_, ?_⟩, rfl, ?_, ?_, ?_, ?_, ?_, ?_, ?_, fun _ => hlogs⟩
  · show w.master < (makeChan w.heap).2.length
    simp [makeChan]; omega
  · rw [hcl]; exact List.nodup_cons.mpr ⟨hnotin, hnd⟩
  · intro s hs
    rw [hcl] at hs
    rcases List.mem_cons.mp hs with hs | hs
    · subst hs
      refine ⟨Nat.ne_of_gt hm, ?_⟩
      have := getElem?_makeChan_new w.heap
      simp only [makeChan] at this
      simp [isOpen, Clone, makeChan]
    · refine ⟨(hreg s hs).1, ?_⟩
      have := (hreg s hs).2
      unfold isOpen at this ⊢
      rw [hold s (lt_of_isOpen (hreg s hs).2)]
      exact this
  · show w.heap.length ≤ (makeChan w.heap).2.length
    simp [makeChan]
  · unfold chanLog; rw [hold _ hm]; simp
  · intro s hs _
    refine ⟨by rw [hcl]; exact List.mem_cons_of_mem _ hs, ?_⟩
    unfold chanLog; rw [hold s (lt_of_isOpen (hreg s hs).2)]; simp
  · intro s hlt hs _
    refine ⟨?_, ?_⟩
    · rw [hcl]
      intro hin
      rcases List.mem_cons.mp hin with h1 | h1
      · omega
      · exact hs h1
    · unfold chanLog; rw [hold s hlt]
  · intro s hs
    left
    have hlt : s < w.heap.length := by
      by_contra hge
      have hlen := lt_of_isClosed hs
      have hs2 : s = w.heap.length := by
        have : (Clone w).2.heap.length = w.heap.length + 1 := by simp [Clone, makeChan]
        omega
      subst hs2
      simp [isClosed, Clone, makeChan] at hs
    unfold isClosed at hs ⊢
    rw [hold s hlt] at hs
    exact hs
  · intro hst
    refine ⟨rfl, ?_⟩
    rcases hst with hst | hst
    · left
      show isClosed (Clone w).2.heap w.master = true
      unfold isClosed at hst ⊢
      rw [hold _ hm]; exact hst
    · right; exact hst
  · intro ha hc
    refine ⟨ha, ?_⟩
    show isClosed (Clone w).2.heap w.master = false
    unfold isClosed at hc ⊢
    rw [hold _ hm]; exact hc


theorem Close_of_not_mem (w : ChannelManager) (s : Nat) (h : s ∉ w.clones) :
    Close w s = .ok w := by
  simp [Close, h]

theorem Close_of_mem {w : ChannelManager} (h : WF w) {s : Nat} (hs : s ∈ w.clones) :
    ∃ c, w.heap[s]? = some c ∧ c.closed = false ∧
      Close w s = .ok { w with heap := w.heap.set s { c with closed := true },
                               clones := w.clones.filter (fun t => t != s) } := by
  have ho := (h.2.2 s hs).2
  unfold isOpen at ho
  cases hg : w.heap[s]? with
  | none => simp [hg] at ho
  | some c =>
    simp [hg] at ho
    exact ⟨c, rfl, ho, by simp [Close, hs, closeChan, hg, ho]⟩

theorem Close_follows {w : ChannelManager} (h : WF w) (s : Nat) :
    ∃ w1, Close w s = .ok w1 ∧ Follows w w1 [s] [] ∧ s ∉ w1.clones ∧
      w1.hubAlive = w.hubAlive ∧ ∀ t, t ≠ s → (t ∈ w1.clones ↔ t ∈ w.clones) := by
  by_cases hs : s ∈ w.clones
  · obtain ⟨c, hg, hc, hcl⟩ := Close_of_mem h hs
    obtain ⟨hm, hnd, hreg⟩ := h
    have hsm : s ≠ w.master := (hreg s hs).1
    have hne : ∀ i, i ≠ s → (w.heap.set s { c with closed := true })[i]? = w.heap[i]? := by
      intro i hi
      rw [List.getElem?_set]
      have : ¬ s = i := fun h => hi h.symm
      simp [this]
    have hlogs : ∀ t, chanLog (w.heap.set s { c with closed := true }) t = chanLog w.heap t := by
      intro t
      by_cases hts : t = s
      · subst hts
        rw [chanLog_set]
        unfold chanLog
        simp [hg]
      · unfold chanLog; rw [hne t hts]
    refine ⟨_, hcl, ⟨⟨?_, ?_, ?_⟩, rfl, ?_, ?_, ?_, ?_, ?_, ?_, ?_, fun _ => hlogs⟩, ?_, rfl, ?_⟩
    · simpa using hm
    · exact hnd.filter _
    · intro t ht
      simp only [List.mem_filter, bne_iff_ne, ne_eq] at ht
      refine ⟨(hreg t ht.1).1, ?_⟩
      have := (hreg t ht.1).2
      unfold isOpen at this ⊢
      simp only at this ⊢
      rw [hne t ht.2]; exact this
    · simp
    · simp only [List.append_nil]; unfold chanLog; rw [hne _ (Ne.symm hsm)]
    · intro t ht hts
      simp only [List.mem_singleton] at hts
      refine ⟨by simp [List.mem_filter, ht, hts], ?_⟩
      simp only [List.append_nil]; unfold chanLog; rw [hne t hts]
    · intro t _ ht htm
      refine ⟨by simp [List.mem_filter, ht], ?_⟩
      by_cases hts : t = s
      · subst hts; exact absurd hs ht
      · unfold chanLog; simp only; rw [hne t hts]
    · intro t ht
      by_cases hts : t = s
      · right; simp [hts]
      · left
        unfold isClosed at ht ⊢
        simp only at ht
        rw [hne t hts] at ht; exact ht
    · intro hst
      refine ⟨rfl, ?_⟩
      rcases hst with hst | hst
      · left
        unfold isClosed at hst ⊢
        simp only
        rw [hne _ (Ne.symm hsm)]; exact hst
      · right; exact hst
    · intro ha hcm
      refine ⟨ha, ?_⟩
      unfold isClosed at hcm ⊢
      simp only
      rw [hne _ (Ne.symm hsm)]; exact hcm
    · simp [List.mem_filter]
    · intro t hts
      simp [List.mem_filter, hts]
  · refine ⟨w, Close_of_not_mem w s hs, ?_, hs, rfl, fun _ _ => Iff.rfl⟩
    have := Follows.refl h
    exact { this with
      kept := fun t ht _ => this.kept t ht (by simp)
      closed_by := fun t ht => Or.inl ht }


theorem hubIter_dead (w : ChannelManager) (d : Frame) (h : w.hubAlive = false) :
    hubIter w d = .ok w := by
  simp [hubIter, h]

theorem hubIter_eos (w : ChannelManager) (d : Frame) (h : w.hubAlive = true)
    (hc : isClosed w.heap w.master = true) :
    hubIter w d = .ok { w with hubAlive := false } := by
  unfold isClosed at hc
  cases hg : w.heap[w.master]? with
  | none => simp [hg] at hc
  | some m =>
    simp [hg] at hc
    simp [hubIter, h, hg, hc]

theorem hubIter_open {w : ChannelManager} (hwf : WF w) (d : Frame) (h : w.hubAlive = true)
    (hc : isClosed w.heap w.master = false) :
    ∃ heap1, hubIter w d = .ok { w with heap := heap1 } ∧ heap1.length = w.heap.length ∧
      ∀ i, heap1[i]? = (w.heap[i]?).map
        (fun c => if i = w.master ∨ i ∈ w.clones then { c with log := c.log ++ [d] } else c) := by
  obtain ⟨hm, hnd, hreg⟩ := hwf
  unfold isClosed at hc
  cases hg : w.heap[w.master]? with
  | none =>
    rw [List.getElem?_eq_none_iff] at hg
    omega
  | some m =>
    simp [hg] at hc
    obtain ⟨heap1, h1, h2, h3⟩ := fanOut_spec d w.clones
      (w.heap.set w.master { m with log := m.log ++ [d] }) hnd (by
        intro s hs
        have := (hreg s hs).2
        unfold isOpen at this ⊢
        rw [List.getElem?_set]
        have hne : ¬ w.master = s := fun h => (hreg s hs).1 h.symm
        simpa [hne] using this)
    have h1b := h1
    simp only [hc] at h1b
    refine ⟨heap1, by simp [hubIter, h, hg, hc, h1b], by simpa using h2, ?_⟩
    intro i
    rw [h3 i, List.getElem?_set]
    by_cases hi : w.master = i
    · subst hi
      have hnot : w.master ∉ w.clones := fun hin => (hreg _ hin).1 rfl
      simp [hm, hg, hnot]
    · have hi2 : ¬ i = w.master := fun h => hi h.symm
      simp [hi, hi2]

theorem hubIter_follows {w : ChannelManager} (hwf : WF w) (d : Frame) :
    ∃ w1 fs, hubIter w d = .ok w1 ∧ Follows w w1 [] fs ∧ w1.clones = w.clones ∧
      (fs = [] ∨ fs = [d]) ∧
      (w.hubAlive = true → isClosed w.heap w.master = false → fs = [d]) := by
  by_cases ha : w.hubAlive = true
  · by_cases hc : isClosed w.heap w.master = true
    · refine ⟨_, [], hubIter_eos w d ha hc, ?_, rfl, Or.inl rfl, ?_⟩
      · have := Follows.refl hwf
        exact { this with
          wf := hwf
          stopped := fun _ => ⟨rfl, Or.inr rfl⟩
          running := fun _ h2 => by rw [hc] at h2; cases h2 }
      · intro _ h2; rw [hc] at h2; cases h2
    · have hc : isClosed w.heap w.master = false := by simpa using hc
      obtain ⟨heap1, h1, h2, h3⟩ := hubIter_open hwf d ha hc
      obtain ⟨hm, hnd, hreg⟩ := hwf
      have hopen : ∀ i, isOpen heap1 i = isOpen w.heap i := by
        intro i
        unfold isOpen
        rw [h3 i]
        cases w.heap[i]? with
        | none => rfl
        | some c => simp only [Option.map]; split <;> rfl
      have hclosed : ∀ i, isClosed heap1 i = isClosed w.heap i := by
        intro i
        unfold isClosed
        rw [h3 i]
        cases w.heap[i]? with
        | none => rfl
        | some c => simp only [Option.map]; split <;> rfl
      have hlogin : ∀ i, i < w.heap.length → (i = w.master ∨ i ∈ w.clones) →
          chanLog heap1 i = chanLog w.heap i ++ [d] := by
        intro i hi hin
        unfold chanLog
        rw [h3 i, List.getElem?_eq_getElem hi]
        simp [hin]
      have hlogout : ∀ i, ¬ (i = w.master ∨ i ∈ w.clones) →
          chanLog heap1 i = chanLog w.heap i := by
        intro i hin
        unfold chanLog
        rw [h3 i]
        cases w.heap[i]? with
        | none => rfl
        | some c => simp [hin]
      refine ⟨_, [d], h1, ⟨⟨?_, hnd, ?_⟩, rfl, ?_, ?_, ?_, ?_, ?_, ?_, ?_, ?_⟩, rfl, Or.inr rfl,
        fun _ _ => rfl⟩
      · show w.master < heap1.length
        omega
      · intro s hs
        exact ⟨(hreg s hs).1, by show isOpen heap1 s = true; rw [hopen]; exact (hreg s hs).2⟩
      · show w.heap.length ≤ heap1.length
        omega
      · exact hlogin _ hm (Or.inl rfl)
      · intro s hs _
        exact ⟨hs, hlogin s (lt_of_isOpen (hreg s hs).2) (Or.inr hs)⟩
      · intro s _ hs hsm
        exact ⟨hs, hlogout s (by simp [hs, hsm])⟩
      · intro s hs
        left
        have : isClosed heap1 s = true := hs
        rw [hclosed] at this; exact this
      · intro hst
        rcases hst with hst | hst
        · rw [hc] at hst; cases hst
        · rw [ha] at hst; cases hst
      · intro _ _
        exact ⟨ha, by show isClosed heap1 w.master = false; rw [hclosed]; exact hc⟩
      · intro hfs; cases hfs
  · have ha : w.hubAlive = false := by simpa using ha
    exact ⟨w, [], hubIter_dead w d ha, Follows.refl hwf, rfl, Or.inl rfl,
      fun h _ => by rw [ha] at h; cases h⟩


theorem step_follows {w : ChannelManager} (hwf : WF w) (a : Step) :
    ∃ w1 fs, step w a = .ok w1 ∧ Follows w w1 (closedHandles [a]) fs ∧
      (w.hubAlive = true → isClosed w.heap w.master = false → fs = framesOf [a]) := by
  cases a with
  | clone => exact ⟨_, [], rfl, Clone_follows hwf, fun _ _ => rfl⟩
  | close s =>
    obtain ⟨w1, h1, h2, _⟩ := Close_follows hwf s
    exact ⟨w1, [], h1, h2, fun _ _ => rfl⟩
  | deliver d =>
    obtain ⟨w1, fs, h1, h2, _, _, h5⟩ := hubIter_follows hwf d
    exact ⟨w1, fs, h1, h2, h5⟩

theorem closedHandles_cons (a : Step) (rest : List Step) :
    closedHandles (a :: rest) = closedHandles [a] ++ closedHandles rest := by
  cases a <;> rfl

theorem framesOf_cons (a : Step) (rest : List Step) :
    framesOf (a :: rest) = framesOf [a] ++ framesOf rest := by
  cases a <;> rfl

theorem run_follows : ∀ (steps : List Step) {w : ChannelManager}, WF w →
    ∃ w1 fs, run w steps = .ok w1 ∧ Follows w w1 (closedHandles steps) fs ∧
      (w.hubAlive = true → isClosed w.heap w.master = false → fs = framesOf steps) := by
  intro steps
  induction steps with
  | nil => intro w hwf; exact ⟨w, [], rfl, Follows.refl hwf, fun _ _ => rfl⟩
  | cons a rest ih =>
    intro w hwf
    obtain ⟨w1, fs1, h1, h2, h3⟩ := step_follows hwf a
    obtain ⟨w2, fs2, h4, h5, h6⟩ := ih h2.wf
    refine ⟨w2, fs1 ++ fs2, by simp [run, h1, h4], ?_, ?_⟩
    · rw [closedHandles_cons]; exact h2.trans h5
    · intro ha hc
      obtain ⟨hb, hd⟩ := h2.running ha hc
      rw [framesOf_cons, h3 ha hc, h6 hb hd]


theorem run_ingested (steps : List Step) {w : ChannelManager} (hwf : WF w) :
    ∃ w1, run w steps = .ok w1 ∧ Follows w w1 (closedHandles steps) (ingested w steps) := by
  obtain ⟨w1, fs, h1, h2, h3⟩ := run_follows steps hwf
  have : fs = ingested w steps := by
    unfold ingested
    by_cases h : w.hubAlive = true ∧ isClosed w.heap w.master = false
    · rw [if_pos h]; exact h3 h.1 h.2
    · rw [if_neg h]
      apply (h2.stopped _).1
      by_cases ha : w.hubAlive = true
      · left
        have : ¬ isClosed w.heap w.master = false := fun hc => h ⟨ha, hc⟩
        simpa using this
      · right; simpa using ha
  subst this
  exact ⟨w1, h1, h2⟩

/-- The order in which the inner loop visits the keys of `clones` (unspecified for a
Go map) does not change what the fan-out does. -/
theorem fanOut_order (d : Frame) (l1 l2 : List Nat) (heap : List Chan) (hp : l1.Perm l2)
    (hnd : l1.Nodup) (hopen : ∀ s ∈ l1, isOpen heap s = true) :
    fanOut d l1 heap = fanOut d l2 heap := by
  obtain ⟨h1, e1, _, g1⟩ := fanOut_spec d l1 heap hnd hopen
  obtain ⟨h2, e2, _, g2⟩ := fanOut_spec d l2 heap (hp.nodup_iff.mp hnd)
    (fun s hs => hopen s (hp.mem_iff.mpr hs))
  rw [e1, e2]
  congr 1
  apply List.ext_getElem?
  intro i
  rw [g1 i, g2 i]
  simp only [hp.mem_iff]

/-- Two calls of `Close` on the same handle do what one call does, in every state. -/
theorem Close_twice (w : ChannelManager) (s : Nat) :
    (Close w s).bind (fun w1 => Close w1 s) = Close w s := by
  by_cases hs : s ∈ w.clones
  · cases hcc : closeChan w.heap s with
    | error e => simp [Close, hs, hcc, Except.bind]
    | ok heap1 =>
      simp only [Close, hs, hcc, if_true, Except.bind]
      simp
  · simp [Close, hs, Except.bind]

/-- Every frame `captureSerial` sends has the length of its buffer. -/
theorem captureSerial_frame_length (reads : List ReadResult) :
    ∀ f ∈ (captureSerial reads).1, f.length = 64 := by
  have key : ∀ (rs : List ReadResult) (d : List Nat), d.length = 64 →
      ∀ f ∈ (captureLoop d rs).1, f.length = 64 := by
    intro rs
    induction rs with
    | nil => intro d _ f hf; simp [captureLoop] at hf
    | cons r rest ih =>
      intro d hd f hf
      cases r with
      | fail => simp [captureLoop] at hf
      | data bs =>
        have hlen : (readInto d bs).2.length = 64 := by
          simp [readInto, hd]
        simp only [captureLoop, List.mem_cons] at hf
        rcases hf with hf | hf
        · rw [hf]; exact hlen
        · exact ih _ hlen f hf
  exact key reads _ (by simp)

/-- The end-to-end scenario of the specification: frames "AB", "CD", "EF", two
subscriptions made before the first frame and a third made after "AB". -/
theorem scenario_end_to_end :
    run hub0 [.clone, .clone, .deliver [65, 66], .clone, .deliver [67, 68], .deliver [69, 70]]
      = .ok { heap := [⟨false, [[65, 66], [67, 68], [69, 70]]⟩,
                       ⟨false, [[65, 66], [67, 68], [69, 70]]⟩,
                       ⟨false, [[65, 66], [67, 68], [69, 70]]⟩,
                       ⟨false, [[67, 68], [69, 70]]⟩],
              master := 0, clones := [3, 2, 1], hubAlive := true } := by
  rfl

/-- The states named above are the ones the code reaches. -/
theorem scenario_states :
    hub2 = { heap := [⟨false, []⟩, ⟨false, []⟩, ⟨false, []⟩], master := 0,
             clones := [2, 1], hubAlive := true } ∧
    hubIter hub2 [65, 66] = .ok hubAB ∧
    (closeChan hub2.heap hub2.master).map (fun h => { hub2 with heap := h }) = .ok hubEnd := by
  refine ⟨rfl, rfl, rfl⟩

/-- Claim C1 (fan-out completeness): from every well-formed state, every sequence of
Clone, Close and delivery steps runs without fault; `master` has then passed exactly
the frames `ingested w steps` on top of what it had passed, and every subscription
`s` that was registered at the start and was not passed to `Close` is still
registered and has been handed exactly those frames, each once, in that order, on
top of what it had been handed. -/
theorem fanOut_complete (w : ChannelManager) (hwf : WF w) (steps : List Step) (s : Nat)
    (hs : s ∈ w.clones) (hk : s ∉ closedHandles steps) :
    ∃ w1, run w steps = .ok w1 ∧
      chanLog w1.heap w1.master = chanLog w.heap w.master ++ ingested w steps ∧
      s ∈ w1.clones ∧
      chanLog w1.heap s = chanLog w.heap s ++ ingested w steps := by
  obtain ⟨w1, h1, h2⟩ := run_ingested steps hwf
  obtain ⟨h3, h4⟩ := h2.kept s hs hk
  exact ⟨w1, h1, by rw [h2.master_eq]; exact h2.master_log, h3, h4⟩

theorem fanOut_complete_witness :
    WF hub2 ∧ 1 ∈ hub2.clones ∧
    1 ∉ closedHandles [.deliver [65, 66], .clone, .deliver [67, 68], .deliver [69, 70]] ∧
    ∃ w1, run hub2 [.deliver [65, 66], .clone, .deliver [67, 68], .deliver [69, 70]] = .ok w1 ∧
      chanLog w1.heap w1.master = chanLog hub2.heap hub2.master ++
        ingested hub2 [.deliver [65, 66], .clone, .deliver [67, 68], .deliver [69, 70]] ∧
      1 ∈ w1.clones ∧
      chanLog w1.heap 1 = chanLog hub2.heap 1 ++
        ingested hub2 [.deliver [65, 66], .clone, .deliver [67, 68], .deliver [69, 70]] :=
  ⟨by decide, by decide, by decide,
    fanOut_complete hub2 (by decide) _ 1 (by decide) (by decide)⟩

/-- Claim C2 (late-join isolation): in every well-formed state `w` (whatever has
been ingested and delivered before), the channel returned by `Clone`, unless it is
passed to `Close`, is handed in every later sequence of steps exactly the frames the
hub takes from `master` after the call, in order, and none of the frames `master`
had passed before. -/
theorem late_join_isolation (w : ChannelManager) (hwf : WF w) (steps : List Step)
    (hc : (Clone w).1 ∉ closedHandles steps) :
    ∃ w1, run (Clone w).2 steps = .ok w1 ∧
      chanLog w1.heap w1.master = chanLog w.heap w.master ++ ingested w steps ∧
      chanLog w1.heap (Clone w).1 = ingested w steps := by
  have hcl := Clone_follows hwf
  obtain ⟨w1, h1, h2⟩ := run_ingested steps hcl.wf
  have hin : (Clone w).1 ∈ (Clone w).2.clones := by
    simp [Clone, makeChan]
  have hnew : chanLog (Clone w).2.heap (Clone w).1 = [] := by
    simp [chanLog, Clone, makeChan]
  have hing : ingested (Clone w).2 steps = ingested w steps := by
    unfold ingested
    by_cases h : w.hubAlive = true ∧ isClosed w.heap w.master = false
    · have := hcl.running h.1 h.2
      rw [if_pos h, if_pos this]
    · rw [if_neg h]
      have hst : isClosed w.heap w.master = true ∨ w.hubAlive = false := by
        by_cases ha : w.hubAlive = true
        · left
          have : ¬ isClosed w.heap w.master = false := fun hc => h ⟨ha, hc⟩
          simpa using this
        · right; simpa using ha
      have hst2 := (hcl.stopped hst).2
      have : ¬ ((Clone w).2.hubAlive = true ∧
          isClosed (Clone w).2.heap (Clone w).2.master = false) := by
        intro hboth
        rcases hst2 with h5 | h5
        · rw [hboth.2] at h5; cases h5
        · rw [hboth.1] at h5; cases h5
      rw [if_neg this]
  rw [hing] at h2
  refine ⟨w1, h1, ?_, ?_⟩
  · have hm := h2.master_log
    rw [h2.master_eq, hm]
    have := hcl.master_log
    rw [List.append_nil] at this
    show chanLog (Clone w).2.heap w.master ++ _ = _
    rw [this]
  · rw [(h2.kept _ hin hc).2, hnew, List.nil_append]

theorem late_join_isolation_witness :
    WF hubAB ∧ (Clone hubAB).1 ∉ closedHandles [.deliver [67, 68], .deliver [69, 70]] ∧
    chanLog hubAB.heap hubAB.master = [[65, 66]] ∧
    ingested hubAB [.deliver [67, 68], .deliver [69, 70]] = [[67, 68], [69, 70]] ∧
    ∃ w1, run (Clone hubAB).2 [.deliver [67, 68], .deliver [69, 70]] = .ok w1 ∧
      chanLog w1.heap w1.master = chanLog hubAB.heap hubAB.master ++
        ingested hubAB [.deliver [67, 68], .deliver [69, 70]] ∧
      chanLog w1.heap (Clone hubAB).1 = ingested hubAB [.deliver [67, 68], .deliver [69, 70]] :=
  ⟨by decide, by decide, by decide, by decide,
    late_join_isolation hubAB (by decide) _ (by decide)⟩

/-- Claim C3 (idempotent unsubscribe): in every state, `Close(s)` followed by
`Close(s)` gives what a single `Close(s)` gives; `Close` on a handle that is not a
key of `clones` returns the state unchanged, without fault; and in a well-formed
state `Close(s)` returns without fault, leaves `s` out of `clones`, and a second
`Close(s)` returns that same state without fault, so `close` is not called on the
channel again. -/
theorem Close_idempotent (w : ChannelManager) (s : Nat) :
    (Close w s).bind (fun w1 => Close w1 s) = Close w s ∧
    (s ∉ w.clones → Close w s = .ok w) ∧
    (WF w → ∃ w1, Close w s = .ok w1 ∧ s ∉ w1.clones ∧ Close w1 s = .ok w1) := by
  refine ⟨Close_twice w s, Close_of_not_mem w s, ?_⟩
  intro hwf
  obtain ⟨w1, h1, _, h3, _⟩ := Close_follows hwf s
  exact ⟨w1, h1, h3, Close_of_not_mem w1 s h3⟩

theorem Close_idempotent_witness :
    5 ∉ hub2.clones ∧ WF hub2 ∧ 1 ∈ hub2.clones ∧
    Close hub2 5 = .ok hub2 ∧
    ∃ w1, Close hub2 1 = .ok w1 ∧ 1 ∉ w1.clones ∧ Close w1 1 = .ok w1 :=
  ⟨by decide, by decide, by decide, (Close_idempotent hub2 5).2.1 (by decide),
    (Close_idempotent hub2 1).2.2 (by decide)⟩

/-- Claim C4 (unsubscribe is effective immediately): in every well-formed state and
for every registered `s`, `Close(s)` returns without fault with `s` no longer
registered, and after every later sequence of Clone, Close and delivery steps `s` is
still not registered and nothing more has been handed to it. -/
theorem Close_effective (w : ChannelManager) (hwf : WF w) (s : Nat) (hs : s ∈ w.clones)
    (steps : List Step) :
    ∃ w1 w2, Close w s = .ok w1 ∧ run w1 steps = .ok w2 ∧ s ∉ w1.clones ∧ s ∉ w2.clones ∧
      chanLog w2.heap s = chanLog w.heap s := by
  obtain ⟨w1, h1, h2, h3, _⟩ := Close_follows hwf s
  obtain ⟨w2, fs, h4, h5, _⟩ := run_follows steps h2.wf
  have hlt : s < w1.heap.length := Nat.lt_of_lt_of_le (lt_of_isOpen (hwf.2.2 s hs).2) h2.len_le
  have hsm : s ≠ w1.master := by rw [h2.master_eq]; exact (hwf.2.2 s hs).1
  obtain ⟨h6, h7⟩ := h5.frozen s hlt h3 hsm
  exact ⟨w1, w2, h1, h4, h3, h6, by rw [h7, h2.quiet rfl s]⟩

theorem Close_effective_witness :
    WF hubAB ∧ 1 ∈ hubAB.clones ∧
    ∃ w1 w2, Close hubAB 1 = .ok w1 ∧
      run w1 [.deliver [67, 68], .clone, .close 1, .deliver [69, 70]] = .ok w2 ∧
      1 ∉ w1.clones ∧ 1 ∉ w2.clones ∧ chanLog w2.heap 1 = chanLog hubAB.heap 1 :=
  ⟨by decide, by decide, Close_effective hubAB (by decide) 1 (by decide) _⟩

/-- Claim C5 (subscribe postcondition and frame): in every well-formed state `Clone`
returns a handle that is not a key of `clones` and is not `master`; afterwards that
handle denotes an open channel nothing went through, the keys of `clones` are the old
keys and the new handle, `master` and the goroutine flag are as before, and every
channel that existed keeps its content. -/
theorem Clone_post (w : ChannelManager) (hwf : WF w) :
    (Clone w).1 ∉ w.clones ∧ (Clone w).1 ≠ w.master ∧
    (Clone w).2.heap[(Clone w).1]? = some { closed := false, log := [] } ∧
    (∀ t, t ∈ (Clone w).2.clones ↔ t = (Clone w).1 ∨ t ∈ w.clones) ∧
    (Clone w).2.master = w.master ∧ (Clone w).2.hubAlive = w.hubAlive ∧
    (∀ t, t < w.heap.length → (Clone w).2.heap[t]? = w.heap[t]?) ∧
    (Clone w).2.heap.length = w.heap.length + 1 := by
  have hnotin : w.heap.length ∉ w.clones := by
    intro hin
    exact Nat.lt_irrefl _ (lt_of_isOpen (hwf.2.2 _ hin).2)
  refine ⟨hnotin, Nat.ne_of_gt hwf.1, getElem?_makeChan_new w.heap, ?_, rfl, rfl,
    fun t ht => getElem?_makeChan_old w.heap t ht, by simp [Clone, makeChan]⟩
  intro t
  simp [Clone, makeChan]

theorem Clone_post_witness :
    WF hubAB ∧ (Clone hubAB).1 = 3 ∧
    ((Clone hubAB).1 ∉ hubAB.clones ∧ (Clone hubAB).1 ≠ hubAB.master ∧
    (Clone hubAB).2.heap[(Clone hubAB).1]? = some { closed := false, log := [] } ∧
    (∀ t, t ∈ (Clone hubAB).2.clones ↔ t = (Clone hubAB).1 ∨ t ∈ hubAB.clones) ∧
    (Clone hubAB).2.master = hubAB.master ∧ (Clone hubAB).2.hubAlive = hubAB.hubAlive ∧
    (∀ t, t < hubAB.heap.length → (Clone hubAB).2.heap[t]? = hubAB.heap[t]?) ∧
    (Clone hubAB).2.heap.length = hubAB.heap.length + 1) :=
  ⟨by decide, rfl, Clone_post hubAB (by decide)⟩

/-- Claim C6 (unmodified byte stream), evaluated on the code: when the first read
returns the two bytes "AB", `captureSerial` sends the whole 64-byte buffer, "AB"
followed by 62 zero bytes, so the bytes a consumer receives are not the bytes read;
when a read of "ABC" is followed by a read of "D", the second frame is "DBC"
followed by 61 zero bytes, the bytes of the earlier read coming again. -/
theorem captureSerial_sends_whole_buffer :
    (captureSerial [.data [65, 66]]).1 = [[65, 66] ++ List.replicate 62 0] ∧
    (captureSerial [.data [65, 66]]).1.flatten ≠ bytesRead [.data [65, 66]] ∧
    (captureSerial [.data [65, 66, 67], .data [68]]).1 =
      [[65, 66, 67] ++ List.replicate 61 0, [68, 66, 67] ++ List.replicate 61 0] := by
  decide

/-- Between two iterations of the hub loop (the goroutine parked in no send): in
every well-formed state, when the write of the consumer that owns the registered
subscription `c` fails, its loop closes the connection, calls `Close(c)` without
fault and stops; the keys of `clones` are then the old keys other than `c`, one fewer
than before, the goroutine flag, `master` and every channel other than `c` are
untouched, and every other registered subscription `t`, unless it is passed to
`Close`, stays registered through every later sequence of steps and is handed exactly
the frames the hub takes from `master` in it, in order. -/
theorem serveClient_failure_between_iterations (w : ChannelManager) (hwf : WF w) (c : Nat)
    (hc : c ∈ w.clones) (conn : Conn) (d : Frame) (steps : List Step) (t : Nat)
    (ht : t ∈ w.clones) (htc : t ≠ c) (hk : t ∉ closedHandles steps) :
    ∃ w1 w2, serveClientIter w c conn d false = .ok (w1, { conn with closed := true }, false) ∧
      (∀ u, u ∈ w1.clones ↔ u ∈ w.clones ∧ u ≠ c) ∧
      w1.clones.length + 1 = w.clones.length ∧
      w1.hubAlive = w.hubAlive ∧ w1.master = w.master ∧
      (∀ u, u ≠ c → w1.heap[u]? = w.heap[u]?) ∧
      run w1 steps = .ok w2 ∧
      chanLog w2.heap w2.master = chanLog w.heap w.master ++ ingested w steps ∧
      t ∈ w2.clones ∧ chanLog w2.heap t = chanLog w.heap t ++ ingested w steps := by
  obtain ⟨ch, hg, hopen, hcl⟩ := Close_of_mem hwf hc
  obtain ⟨w1, h1, h2, h3, h4, h5⟩ := Close_follows hwf c
  have hw1 : w1 = { w with heap := w.heap.set c { ch with closed := true },
                           clones := w.clones.filter (fun t => t != c) } := by
    rw [hcl] at h1; cases h1; rfl
  have hmc : c ≠ w.master := (hwf.2.2 c hc).1
  have hclosedm : isClosed w1.heap w1.master = isClosed w.heap w.master := by
    rw [hw1]
    show isClosed (w.heap.set c { ch with closed := true }) w.master = _
    unfold isClosed
    rw [List.getElem?_set]
    simp [hmc]
  have hing : ingested w1 steps = ingested w steps := by
    unfold ingested
    rw [h4, hclosedm]
  obtain ⟨w2, h6, h7⟩ := run_ingested steps h2.wf
  rw [hing] at h7
  refine ⟨w1, w2, by simp [serveClientIter, h1], ?_, ?_, h4, h2.master_eq, ?_, h6, ?_, ?_⟩
  · intro u
    by_cases huc : u = c
    · subst huc; simp [h3]
    · simp [h5 u huc, huc]
  · rw [hw1]
    show (w.clones.filter (fun t => t != c)).length + 1 = w.clones.length
    have he : w.clones.filter (fun t => t != c) = w.clones.erase c := by
      rw [hwf.2.1.erase_eq_filter]
    rw [he, List.length_erase_of_mem hc]
    have : 0 < w.clones.length := List.length_pos_of_mem hc
    omega
  · intro u huc
    rw [hw1]
    show (w.heap.set c { ch with closed := true })[u]? = w.heap[u]?
    rw [List.getElem?_set]
    have : ¬ c = u := fun h => huc h.symm
    simp [this]
  · have := h7.master_log
    rw [h7.master_eq, this, h2.master_eq, h2.quiet rfl]
  · have hin : t ∈ w1.clones := (h5 t htc).mpr ht
    obtain ⟨ha, hb⟩ := h7.kept t hin hk
    exact ⟨ha, by rw [hb, h2.quiet rfl]⟩

theorem serveClient_failure_between_iterations_witness :
    WF hubAB ∧ 1 ∈ hubAB.clones ∧ 2 ∈ hubAB.clones ∧ 2 ≠ 1 ∧
    2 ∉ closedHandles [.deliver [67, 68], .close 1, .deliver [69, 70]] ∧
    ∃ w1 w2, serveClientIter hubAB 1 ⟨[], false⟩ [65, 66] false = .ok (w1, ⟨[], true⟩, false) ∧
      (∀ u, u ∈ w1.clones ↔ u ∈ hubAB.clones ∧ u ≠ 1) ∧
      w1.clones.length + 1 = hubAB.clones.length ∧
      w1.hubAlive = hubAB.hubAlive ∧ w1.master = hubAB.master ∧
      (∀ u, u ≠ 1 → w1.heap[u]? = hubAB.heap[u]?) ∧
      run w1 [.deliver [67, 68], .close 1, .deliver [69, 70]] = .ok w2 ∧
      chanLog w2.heap w2.master = chanLog hubAB.heap hubAB.master ++
        ingested hubAB [.deliver [67, 68], .close 1, .deliver [69, 70]] ∧
      2 ∈ w2.clones ∧
      chanLog w2.heap 2 = chanLog hubAB.heap 2 ++
        ingested hubAB [.deliver [67, 68], .close 1, .deliver [69, 70]] :=
  ⟨by decide, by decide, by decide, by decide, by decide,
    serveClient_failure_between_iterations hubAB (by decide) 1 (by decide) ⟨[], false⟩ [65, 66] _ 2
      (by decide) (by decide) (by decide)⟩

/-- Claim C7 (isolation of consumer failure), evaluated on the code: with the log
consumer 1 and the network consumers 2 and 3 registered and "AB" delivered, the hub
takes "CD", hands it to 3 and parks in the send to 2 (had consumer 2 received, the
iteration would have ended as usual).  The write of consumer 2 fails; its loop calls
`Close(2)`, which closes channel 2 and returns without fault.  The send the hub is
parked in then panics (send on closed channel), which ends the process: `master` has
passed "CD", yet the log consumer 1, still registered, was never handed it, and no
registered subscription is handed anything afterwards. -/
theorem serveClient_failure_panics_hub :
    hubIter hub3 [65, 66] = .ok hub3AB ∧
    send (hub3AB.heap.set hub3AB.master ⟨false, [[65, 66], [67, 68]]⟩) 3 [67, 68]
      = .ok hubParked.heap ∧
    hubResume hubParked [67, 68] [2, 1] = hubIter hub3AB [67, 68] ∧
    (∃ w1, hubIter hub3AB [67, 68] = .ok w1) ∧
    serveClientIter hubParked 2 ⟨[], false⟩ [65, 66] false
      = .ok (hubFailed, ⟨[], true⟩, false) ∧
    send hubFailed.heap 2 [67, 68] = .error .sendOnClosed ∧
    hubResume hubFailed [67, 68] [2, 1] = .error .sendOnClosed ∧
    1 ∈ hubFailed.clones ∧ 3 ∈ hubFailed.clones ∧
    chanLog hubFailed.heap hubFailed.master = [[65, 66], [67, 68]] ∧
    chanLog hubFailed.heap 1 = [[65, 66]] := by
  refine ⟨rfl, rfl, rfl, ⟨_, rfl⟩, rfl, rfl, rfl, by decide, by decide, rfl, rfl⟩

/-- Claim C8 (end-of-stream is terminal): in every well-formed state in which the
goroutine is in its loop and `master` is closed, the next iteration returns from the
loop and changes nothing else (the keys of `clones` and every channel are as before,
no channel is closed); once it has returned, further iterations change nothing at
all; and through every later sequence of Clone, Close and delivery steps nothing
more is taken from `master` or handed to any channel. -/
theorem eos_terminal (w : ChannelManager) (hwf : WF w) (ha : w.hubAlive = true)
    (hc : isClosed w.heap w.master = true) (d : Frame) (ds : List Frame) (steps : List Step) :
    hubIter w d = .ok { w with hubAlive := false } ∧
    run { w with hubAlive := false } (ds.map Step.deliver) = .ok { w with hubAlive := false } ∧
    ∃ w2, run w steps = .ok w2 ∧ w2.master = w.master ∧
      ∀ t, chanLog w2.heap t = chanLog w.heap t := by
  refine ⟨hubIter_eos w d ha hc, ?_, ?_⟩
  · induction ds with
    | nil => rfl
    | cons e rest ih =>
      simp only [List.map_cons, run, step]
      rw [hubIter_dead _ e rfl]
      exact ih
  · obtain ⟨w2, h1, h2⟩ := run_ingested steps hwf
    have hnil : ingested w steps = [] := by simp [ingested, hc]
    exact ⟨w2, h1, h2.master_eq, h2.quiet hnil⟩

theorem eos_terminal_witness :
    WF hubEnd ∧ hubEnd.hubAlive = true ∧ isClosed hubEnd.heap hubEnd.master = true ∧
    hubIter hubEnd [65, 66] = .ok { hubEnd with hubAlive := false } ∧
    run { hubEnd with hubAlive := false } ([[67, 68], [69, 70]].map Step.deliver) =
      .ok { hubEnd with hubAlive := false } ∧
    ∃ w2, run hubEnd [.deliver [65, 66], .clone, .deliver [67, 68], .close 1] = .ok w2 ∧
      w2.master = hubEnd.master ∧ ∀ t, chanLog w2.heap t = chanLog hubEnd.heap t :=
  ⟨by decide, rfl, rfl, eos_terminal hubEnd (by decide) rfl rfl [65, 66] [[67, 68], [69, 70]] _⟩

/-- Claim C10 (registered implies open): every sequence of Clone, Close and delivery
steps from `New` over a made channel runs without fault, and in the state it reaches
every key of `clones` is a made, open channel, no closed channel is a key, an
iteration of the hub loop returns without fault (it sends on no closed channel) and
so does `Close` on any handle (it closes no closed channel). -/
theorem registered_implies_open (heap : List Chan) (master : Nat) (hm : master < heap.length)
    (steps : List Step) :
    ∃ w, run (New heap master) steps = .ok w ∧
      (∀ s ∈ w.clones, isOpen w.heap s = true) ∧
      (∀ s, isClosed w.heap s = true → s ∉ w.clones) ∧
      (∀ d, ∃ w1, hubIter w d = .ok w1) ∧
      (∀ s, ∃ w1, Close w s = .ok w1) := by
  have hwf : WF (New heap master) := ⟨hm, List.nodup_nil, by intro s hs; cases hs⟩
  obtain ⟨w, h1, h2⟩ := run_ingested steps hwf
  refine ⟨w, h1, fun s hs => (h2.wf.2.2 s hs).2, ?_, ?_, ?_⟩
  · intro s hs hin
    have := (h2.wf.2.2 s hin).2
    rw [not_isOpen_of_isClosed hs] at this
    cases this
  · intro d
    obtain ⟨w1, _, h3, _⟩ := hubIter_follows h2.wf d
    exact ⟨w1, h3⟩
  · intro s
    obtain ⟨w1, h3, _⟩ := Close_follows h2.wf s
    exact ⟨w1, h3⟩

theorem registered_implies_open_witness :
    0 < [Chan.mk false []].length ∧
    ∃ w, run (New [Chan.mk false []] 0)
        [.clone, .deliver [65, 66], .close 1, .close 1, .clone, .deliver [67, 68]] = .ok w ∧
      (∀ s ∈ w.clones, isOpen w.heap s = true) ∧
      (∀ s, isClosed w.heap s = true → s ∉ w.clones) ∧
      (∀ d, ∃ w1, hubIter w d = .ok w1) ∧
      (∀ s, ∃ w1, Close w s = .ok w1) :=
  ⟨by decide, registered_implies_open [Chan.mk false []] 0 (by decide) _⟩

end Ttysrv
